import Mathlib

/-!
# The template placeholder engine of `main.go`

A shallow embedding of the two functions that make up the mail-merge core,

* `convertToTemplateWithFormatSpecifiersAndPlaceHolders` (the scanner), and
* `parseTemplateWithValue` (the resolver),

together with the part of Go's `fmt.Sprintf` that the resolver relies on.

Go strings are byte sequences, so a string is a list of bytes here.  The scanner is
embedded as the loop it is in the source: a state with the index `i`, one function for
one iteration, bounds-checked accesses, and a fuel-bounded driver.
-/

namespace PiExchange

/-! ## Strings -/

/-- One byte of a Go string. -/
abbrev Byte := UInt8

/-- A Go `string`: an immutable sequence of bytes. -/
abbrev GoString := List Byte

/-- The UTF-8 bytes of a string literal, the way the Go compiler stores it. -/
def bytes (s : String) : GoString := s.data.flatMap String.utf8EncodeChar

/-- The expression `s[i]`; `none` stands for the run-time panic on `i ≥ len(s)`. -/
def index (s : GoString) (i : Nat) : Option Byte := s.get? i

/-- The expression `s[lo:hi]`; `none` stands for the run-time panic raised unless
`lo ≤ hi ≤ len(s)`. -/
def slice (s : GoString) (lo hi : Nat) : Option GoString :=
  if lo ≤ hi ∧ hi ≤ s.length then some ((s.drop lo).take (hi - lo)) else none

/-- The byte `{`. -/
def openBrace : Byte := 123

/-- The byte `}`. -/
def closeBrace : Byte := 125

/-- The byte `%`. -/
def percent : Byte := 37

/-- The string literal `"{{"` of line 187. -/
def openMarker : GoString := [openBrace, openBrace]

/-- The string literal `"}}"` of line 201. -/
def closeMarker : GoString := [closeBrace, closeBrace]

/-- The string literal `"%s"` of line 202. -/
def formatSlot : GoString := [percent, 115]

/-! ## The scanner, `convertToTemplateWithFormatSpecifiersAndPlaceHolders` -/

/-- How a run of the embedded code ends. -/
inductive Run (α : Type) where
  /-- the function returned `a` -/
  | done (a : α)
  /-- an index or slice expression was out of range -/
  | panic
  /-- the driver of the loop ran out of fuel before the loop condition failed -/
  | outOfFuel
  deriving DecidableEq

/-- The local variables of the scanner (lines 178-183) and its named result
`placeHolders`. -/
structure ScanState where
  /-- the `strings.Builder` that receives the skeleton -/
  templateBuilder : GoString
  /-- whether the scanner is between `{{` and `}}` -/
  isPlaceHolder : Bool
  /-- the index of the next byte to read -/
  i : Nat
  /-- the `strings.Builder` that receives the current name -/
  placeHolder : GoString
  /-- the names recorded so far -/
  placeHolders : List GoString
  deriving DecidableEq

/-- The zero values the variables start with. -/
def ScanState.init : ScanState :=
  { templateBuilder := [], isPlaceHolder := false, i := 0, placeHolder := [],
    placeHolders := [] }

/-- The condition `i+1 < len(template) && template[i:i+2] == marker` of lines 187 and 201.
The slice is evaluated only when the left operand holds; `none` is a panic of the slice. -/
def lookingAt (template : GoString) (i : Nat) (marker : GoString) : Option Bool :=
  if i + 1 < template.length then
    (slice template i (i + 2)).map (fun w => decide (w = marker))
  else some false

/-- One iteration of the loop body, lines 186-215.  `WriteByte` and `WriteString` of a
`strings.Builder` always return a nil error, so the only panics are those of the index and
slice expressions. -/
def scanStep (template : GoString) (s : ScanState) : Option ScanState :=
  if !s.isPlaceHolder then
    match lookingAt template s.i openMarker with
    | none => none
    | some true => some { s with isPlaceHolder := true, i := s.i + 2, placeHolder := [] }
    | some false =>
      match index template s.i with
      | none => none
      | some b => some { s with templateBuilder := s.templateBuilder ++ [b], i := s.i + 1 }
  else
    match lookingAt template s.i closeMarker with
    | none => none
    | some true =>
      some { s with templateBuilder := s.templateBuilder ++ formatSlot,
                    placeHolders := s.placeHolders ++ [s.placeHolder],
                    isPlaceHolder := false, i := s.i + 2 }
    | some false =>
      match index template s.i with
      | none => none
      | some b => some { s with placeHolder := s.placeHolder ++ [b], i := s.i + 1 }

/-- The loop `for i < len(template)` of line 185 followed by the `return` of line 218,
run for at most `fuel` iterations. -/
def scanLoop (template : GoString) : Nat → ScanState → Run (GoString × List GoString)
  | 0, s =>
    if s.i < template.length then Run.outOfFuel
    else Run.done (s.templateBuilder, s.placeHolders)
  | fuel + 1, s =>
    if s.i < template.length then
      match scanStep template s with
      | none => Run.panic
      | some t => scanLoop template fuel t
    else Run.done (s.templateBuilder, s.placeHolders)

/-- The scanner of lines 177-219: the skeleton and the placeholder names of a template.
Every iteration advances `i`, so `len(template)` iterations are allowed. -/
def convertToTemplateWithFormatSpecifiersAndPlaceHolders (template : GoString) :
    Run (GoString × List GoString) :=
  scanLoop template template.length ScanState.init

/-! ## The fragment of `fmt.Sprintf` used by the resolver

`parseTemplateWithValue` hands the skeleton to `fmt.Sprintf` as the format string, with one
operand of dynamic type `string` per recorded name.  The definitions below follow
`(*pp).doPrintf` of Go's package `fmt` for operands of type `string`.  Formats that use an
explicit argument index (`%[1]s`), a width, a precision, the quoting verbs `%q`, `%#v` and
`%#w`, or a verb outside ASCII are not covered: on those `Sprintf` answers `none`. -/

/-- The flags of `fmt.fmtFlags` that a format can set between `%` and the verb. -/
structure FmtFlags where
  /-- the flag `#` -/
  sharp : Bool
  /-- the flag `0` -/
  zero : Bool
  /-- the flag `+` -/
  plus : Bool
  /-- the flag `-` -/
  minus : Bool
  /-- the flag ` ` -/
  space : Bool
  deriving DecidableEq

/-- The state after `p.fmt.clearflags()`. -/
def FmtFlags.clear : FmtFlags :=
  { sharp := false, zero := false, plus := false, minus := false, space := false }

/-- The tables `ldigits` and `udigits`, read at a position below 17. -/
def hexDigit (upper : Bool) (n : Nat) : Byte :=
  ((if upper then bytes "0123456789ABCDEFX" else bytes "0123456789abcdefx").get? n).getD 0

/-- The loop of `(*fmt).fmtSbx` over the bytes of the operand; `first` tells whether the
byte at hand is the one at position 0. -/
def hexBytes (f : FmtFlags) (upper : Bool) : Bool → GoString → GoString
  | _, [] => []
  | first, c :: rest =>
    (if f.space && !first then
      (32 : Byte) :: (if f.sharp then [48, hexDigit upper 16] else [])
     else []) ++
    [hexDigit upper (c.toNat / 16), hexDigit upper (c.toNat % 16)] ++
    hexBytes f upper false rest

/-- The function `(*fmt).fmtSx` for a string operand, without width and precision: the
verbs `%x` and `%X`. -/
def fmtSx (f : FmtFlags) (s : GoString) (upper : Bool) : GoString :=
  if s = [] then []
  else (if f.sharp then [48, hexDigit upper 16] else []) ++ hexBytes f upper true s

/-- The function `(*pp).badVerb` for a string operand: `%!verb(string=operand)`. -/
def badVerb (verb : Byte) (arg : GoString) : GoString :=
  bytes "%!" ++ [verb] ++ bytes "(" ++ bytes "string" ++ bytes "=" ++ arg ++ bytes ")"

/-- The function `(*pp).printArg` for an operand of type `string` and an ASCII verb, without
width and precision.  `%q` and `%#v` quote the operand and are not covered, nor is `%#w`,
which newer releases of Go print quoted. -/
def printArg (f : FmtFlags) (arg : GoString) (verb : Byte) : Option GoString :=
  if verb = 84 then some (bytes "string")               -- %T
  else if verb = 112 then some (badVerb verb arg)       -- %p
  else if verb = 118 then (if f.sharp then none else some arg)   -- %v
  else if verb = 115 then some arg                      -- %s
  else if verb = 120 then some (fmtSx f arg false)      -- %x
  else if verb = 88 then some (fmtSx f arg true)        -- %X
  else if verb = 113 then none                          -- %q
  else if verb = 119 ∧ f.sharp then none                -- %#w
  else some (badVerb verb arg)

/-- The operands listed after `%!(EXTRA `, separated by `, `. -/
def extraList : List GoString → GoString
  | [] => []
  | [a] => bytes "string=" ++ a
  | a :: b :: rest => bytes "string=" ++ a ++ bytes ", " ++ extraList (b :: rest)

/-- The end of `doPrintf`: operands that no verb consumed are reported. -/
def extraArgs (args : List GoString) : GoString :=
  if args = [] then [] else bytes "%!(EXTRA " ++ extraList args ++ bytes ")"

/-- The function `(*pp).doPrintf` on the rest of the format and the operands not yet
consumed.  The first argument is `none` while literal text is copied, and `some f` after a
`%`, while flags are read into `f`. -/
def doPrintf : Option FmtFlags → List GoString → GoString → Option GoString
  | none, args, [] => some (extraArgs args)
  | none, args, c :: rest =>
    if c = percent then doPrintf (some FmtFlags.clear) args rest
    else (doPrintf none args rest).map (fun out => c :: out)
  | some _, args, [] => some (bytes "%!(NOVERB)" ++ extraArgs args)
  | some f, args, c :: rest =>
    if c = 35 then doPrintf (some { f with sharp := true }) args rest
    else if c = 48 then doPrintf (some { f with zero := true }) args rest
    else if c = 43 then doPrintf (some { f with plus := true }) args rest
    else if c = 45 then doPrintf (some { f with minus := true }) args rest
    else if c = 32 then doPrintf (some { f with space := true }) args rest
    else
      match args with
      | a :: others =>
        -- the fast path for `a`..`z`, and the general path without index, width, precision
        if c = 91 ∨ c = 42 ∨ c = 46 ∨ (49 ≤ c ∧ c ≤ 57) ∨ 128 ≤ c then none
        else if c = percent then (doPrintf none args rest).map (fun out => percent :: out)
        else
          match printArg f a c, doPrintf none others rest with
          | some shown, some out => some (shown ++ out)
          | _, _ => none
      | [] =>
        if c = 91 ∨ c = 42 ∨ c = 46 ∨ (49 ≤ c ∧ c ≤ 57) ∨ 128 ≤ c then none
        else if c = percent then (doPrintf none args rest).map (fun out => percent :: out)
        else
          (doPrintf none [] rest).map
            (fun out => bytes "%!" ++ [c] ++ bytes "(MISSING)" ++ out)

/-- The call `fmt.Sprintf(format, args...)` with operands of type `string`. -/
def Sprintf (format : GoString) (args : List GoString) : Option GoString :=
  doPrintf none args format

/-! ## The resolver, `parseTemplateWithValue` -/

/-- A `map[string]string`, as the list of its entries. -/
abbrev Record := List (GoString × GoString)

/-- The map of line 222.  Its only entry is `"TODAY"`, whose producer reads the clock;
`today` is the string that `time.Now().Format("2 Jan 2006")` evaluates to, taken to be the
same at every reading within one call of the resolver. -/
def placeHolderConstMap (today : GoString) : List (GoString × (Unit → GoString)) :=
  [(bytes "TODAY", fun _ => today)]

/-- The loop of lines 231-244, which builds `args` from the recorded names. -/
def resolveArgs (today : GoString) (placeHolderMap : Record) :
    List GoString → Option (List GoString)
  | [] => some []
  | placeHolder :: rest =>
    let value : Option GoString :=
      match placeHolderMap.lookup placeHolder with
      | some placeHolderValue => some placeHolderValue
      | none =>
        match (placeHolderConstMap today).lookup placeHolder with
        | some placeHolderValue => some (placeHolderValue ())
        | none => Sprintf (bytes "\x7b\x7b%s\x7d\x7d") [placeHolder]
    match value, resolveArgs today placeHolderMap rest with
    | some v, some vs => some (v :: vs)
    | _, _ => none

/-- The resolver of lines 221-247.  The answer is `none` when the scanner does not return
(which `scanner_never_fails` excludes) or when the format falls outside the covered fragment
of `fmt.Sprintf`; in the latter case the code still returns a string, which this embedding
does not compute. -/
def parseTemplateWithValue (today : GoString) (template : GoString)
    (placeHolderMap : Record) : Option GoString :=
  match convertToTemplateWithFormatSpecifiersAndPlaceHolders template with
  | Run.done (templateWithFormatSpecifiers, placeHolders) =>
    match resolveArgs today placeHolderMap placeHolders with
    | some args => Sprintf templateWithFormatSpecifiers args
    | none => none
  | _ => none

/-! ## The scanner as a recursion over the unread suffix

`scanRest mode rest` is what the loop still appends to the skeleton and to the name list
when `rest` is the unread part of the template; `mode` is `none` outside a placeholder and
`some name` inside one, `name` being the bytes collected so far.  `scanLoop_eq_scanRest`
proves that the loop computes it. -/

/-- The contribution of the unread suffix to the skeleton and to the names. -/
def scanRest : Option GoString → GoString → GoString × List GoString
  | _, [] => ([], [])
  | none, [a] => ([a], [])
  | some _, [_] => ([], [])
  | none, a :: b :: rest =>
    if a = openBrace ∧ b = openBrace then scanRest (some []) rest
    else (a :: (scanRest none (b :: rest)).1, (scanRest none (b :: rest)).2)
  | some name, a :: b :: rest =>
    if a = closeBrace ∧ b = closeBrace then
      (formatSlot ++ (scanRest none rest).1, name :: (scanRest none rest).2)
    else scanRest (some (name ++ [a])) (b :: rest)

/-- The mode of `scanRest` that a loop state is in. -/
def ScanState.mode (s : ScanState) : Option GoString :=
  if s.isPlaceHolder then some s.placeHolder else none

/-- The string `l` contains no two adjacent bytes `x`, and does not end with `x`: appending
`x x` to `l` creates no earlier occurrence of `x x`. -/
def Clean (x : Byte) : GoString → Prop
  | [] => True
  | [a] => a ≠ x
  | a :: b :: rest => ¬ (a = x ∧ b = x) ∧ Clean x (b :: rest)

/-- The string contains no two adjacent bytes `x`. -/
def NoPair (x : Byte) : GoString → Prop
  | [] => True
  | [_] => True
  | a :: b :: rest => ¬ (a = x ∧ b = x) ∧ NoPair x (b :: rest)

/-! ## Vocabulary of the specification -/

/-- The marker text `{{name}}`. -/
def marker (name : GoString) : GoString := openMarker ++ name ++ closeMarker

/-- The value the specification assigns to a placeholder name: the record's value when the
name is a key of the record, else the registry's value when the name is `TODAY`, else the
marker text itself. -/
def resolvedValue (today : GoString) (record : Record) (name : GoString) : GoString :=
  match record.lookup name with
  | some v => v
  | none => if name = bytes "TODAY" then today else marker name

/-- A template written as `l0 {{n1}} l1 ... {{nk}} lk` is given by `l0` and the pairs
`(n1, l1), ..., (nk, lk)`.  `renderSegments f` writes `f n1 ++ l1 ++ ... ++ f nk ++ lk`. -/
def renderSegments (f : GoString → GoString) : List (GoString × GoString) → GoString
  | [] => []
  | p :: rest => f p.1 ++ p.2 ++ renderSegments f rest

/-- The string `l0 ++ f n1 ++ l1 ++ ... ++ f nk ++ lk`: the template itself for `f = marker`,
the skeleton for `f = fun _ => "%s"`, the rendered output for `f = resolvedValue`. -/
def render (f : GoString → GoString) (l0 : GoString) (segs : List (GoString × GoString)) :
    GoString :=
  l0 ++ renderSegments f segs

/-- The number of non-overlapping occurrences of `%s` in a string, as `strings.Count`
counts them. -/
def countSlots : GoString → Nat
  | [] => 0
  | [_] => 0
  | a :: b :: rest =>
    if a = percent ∧ b = 115 then countSlots rest + 1 else countSlots (b :: rest)

/-- The function `strings.Cut`: the text before and after the first occurrence of `sep`, or
`none` when `sep` does not occur. -/
def cut (sep : GoString) : GoString → Option (GoString × GoString)
  | [] => if sep = [] then some ([], []) else none
  | a :: rest =>
    if sep.isPrefixOf (a :: rest) then some ([], (a :: rest).drop sep.length)
    else (cut sep rest).map (fun p => (a :: p.1, p.2))

/-- The template with its markers replaced, read from left to right: a marker starts at the
first `{{` and ends at the first `}}` after it, and is replaced by the record's value for
the name in between (the empty string when the name is not a key); an open marker that is
never closed is left in place with all that follows when `keepUnclosed` holds, and removed
with all that follows otherwise.  Every other byte is copied. -/
def substituteMarkersFuel (keepUnclosed : Bool) (record : Record) :
    Nat → GoString → GoString
  | 0, t => t
  | fuel + 1, t =>
    match cut openMarker t with
    | none => t
    | some (lit, afterOpen) =>
      match cut closeMarker afterOpen with
      | none => if keepUnclosed then t else lit
      | some (name, rest) =>
        lit ++ (record.lookup name).getD [] ++ substituteMarkersFuel keepUnclosed record fuel rest

/-- The specification's "template with each marker replaced by the record's value"; every
round removes at least four bytes, so `len(t)` rounds are enough. -/
def substituteMarkers (keepUnclosed : Bool) (record : Record) (t : GoString) : GoString :=
  substituteMarkersFuel keepUnclosed record t.length t

/-! ## Bounds-checked accesses in terms of the unread suffix -/

theorem index_eq_head (t : GoString) (i : Nat) (a : Byte) (rest : GoString)
    (h : t.drop i = a :: rest) : index t i = some a := by
  unfold index
  rw [List.get?_eq_getElem?, ← List.head?_drop, h]
  rfl

theorem length_of_drop (t : GoString) (i : Nat) (u : GoString) (h : t.drop i = u) :
    t.length - i = u.length := by
  rw [← h, List.length_drop]

theorem lookingAt_short (t : GoString) (i : Nat) (a : Byte) (m : GoString)
    (h : t.drop i = [a]) : lookingAt t i m = some false := by
  have hl := length_of_drop t i _ h
  simp only [List.length_singleton] at hl
  unfold lookingAt
  rw [if_neg (by omega)]

theorem lookingAt_pair (t : GoString) (i : Nat) (a b : Byte) (rest m : GoString)
    (h : t.drop i = a :: b :: rest) : lookingAt t i m = some (decide ([a, b] = m)) := by
  have hl := length_of_drop t i _ h
  simp only [List.length_cons] at hl
  unfold lookingAt slice
  rw [if_pos (by omega), if_pos (by omega), h]
  simp

theorem drop_succ_of_drop (t : GoString) (i : Nat) (a : Byte) (rest : GoString)
    (h : t.drop i = a :: rest) : t.drop (i + 1) = rest := by
  have h1 : (t.drop i).drop 1 = t.drop (i + 1) := by
    rw [List.drop_drop]
  rw [← h1, h, List.drop_one, List.tail_cons]

theorem drop_two_of_drop (t : GoString) (i : Nat) (a b : Byte) (rest : GoString)
    (h : t.drop i = a :: b :: rest) : t.drop (i + 2) = rest :=
  drop_succ_of_drop t (i + 1) b rest (drop_succ_of_drop t i a (b :: rest) h)

/-! ## One iteration of the loop, case by case -/

theorem scanStep_literal_last (t : GoString) (s : ScanState) (a : Byte)
    (hm : s.isPlaceHolder = false) (h : t.drop s.i = [a]) :
    scanStep t s = some { s with templateBuilder := s.templateBuilder ++ [a], i := s.i + 1 } := by
  unfold scanStep
  rw [hm, lookingAt_short t s.i a _ h, index_eq_head t s.i a [] h]
  rfl

theorem scanStep_literal_open (t : GoString) (s : ScanState) (rest : GoString)
    (hm : s.isPlaceHolder = false) (h : t.drop s.i = openBrace :: openBrace :: rest) :
    scanStep t s = some { s with isPlaceHolder := true, i := s.i + 2, placeHolder := [] } := by
  unfold scanStep
  rw [hm, lookingAt_pair t s.i _ _ rest _ h]
  simp [openMarker]

theorem scanStep_literal_copy (t : GoString) (s : ScanState) (a b : Byte) (rest : GoString)
    (hm : s.isPlaceHolder = false) (h : t.drop s.i = a :: b :: rest)
    (hab : ¬ (a = openBrace ∧ b = openBrace)) :
    scanStep t s = some { s with templateBuilder := s.templateBuilder ++ [a], i := s.i + 1 } := by
  unfold scanStep
  rw [hm, lookingAt_pair t s.i _ _ rest _ h, index_eq_head t s.i a _ h]
  have hne : ¬ [a, b] = openMarker := by
    intro he
    simp only [openMarker, List.cons.injEq, and_true] at he
    exact hab he
  simp [hne]

theorem scanStep_name_last (t : GoString) (s : ScanState) (a : Byte)
    (hm : s.isPlaceHolder = true) (h : t.drop s.i = [a]) :
    scanStep t s = some { s with placeHolder := s.placeHolder ++ [a], i := s.i + 1 } := by
  unfold scanStep
  rw [hm, lookingAt_short t s.i a closeMarker h, index_eq_head t s.i a [] h]
  rfl

theorem scanStep_name_close (t : GoString) (s : ScanState) (rest : GoString)
    (hm : s.isPlaceHolder = true) (h : t.drop s.i = closeBrace :: closeBrace :: rest) :
    scanStep t s = some { s with templateBuilder := s.templateBuilder ++ formatSlot,
                                 placeHolders := s.placeHolders ++ [s.placeHolder],
                                 isPlaceHolder := false, i := s.i + 2 } := by
  unfold scanStep
  rw [hm, lookingAt_pair t s.i _ _ rest closeMarker h]
  simp [closeMarker]

theorem scanStep_name_copy (t : GoString) (s : ScanState) (a b : Byte) (rest : GoString)
    (hm : s.isPlaceHolder = true) (h : t.drop s.i = a :: b :: rest)
    (hab : ¬ (a = closeBrace ∧ b = closeBrace)) :
    scanStep t s = some { s with placeHolder := s.placeHolder ++ [a], i := s.i + 1 } := by
  unfold scanStep
  rw [hm, lookingAt_pair t s.i _ _ rest closeMarker h, index_eq_head t s.i a _ h]
  have hne : ¬ [a, b] = closeMarker := by
    intro he
    simp only [closeMarker, List.cons.injEq, and_true] at he
    exact hab he
  simp [hne]

/-! ## The loop computes `scanRest` -/

theorem scanRest_nil (m : Option GoString) : scanRest m [] = ([], []) := by
  cases m <;> rfl

theorem scanLoop_eq_scanRest (t : GoString) :
    ∀ (fuel : Nat) (s : ScanState), t.length - s.i ≤ fuel →
      scanLoop t fuel s =
        Run.done (s.templateBuilder ++ (scanRest s.mode (t.drop s.i)).1,
                  s.placeHolders ++ (scanRest s.mode (t.drop s.i)).2) := by
  intro fuel
  induction fuel with
  | zero =>
    intro s hf
    have hi : ¬ s.i < t.length := by omega
    have hd : t.drop s.i = [] := List.drop_eq_nil_of_le (by omega)
    simp [scanLoop, hi, hd, scanRest_nil]
  | succ fuel ih =>
    intro s hf
    by_cases hi : s.i < t.length
    · obtain ⟨a, rest, hd⟩ : ∃ a rest, t.drop s.i = a :: rest := by
        cases hdr : t.drop s.i with
        | nil =>
          have := length_of_drop t s.i _ hdr
          simp at this
          omega
        | cons a rest => exact ⟨a, rest, rfl⟩
      have hlen := length_of_drop t s.i _ hd
      simp only [List.length_cons] at hlen
      unfold scanLoop
      rw [if_pos hi, hd]
      cases hm : s.isPlaceHolder with
      | false =>
        have hmode : s.mode = none := by simp [ScanState.mode, hm]
        rw [hmode]
        cases rest with
        | nil =>
          rw [scanStep_literal_last t s a hm hd]
          simp only
          rw [ih _ (by simp only; omega)]
          simp only [ScanState.mode, hm, drop_succ_of_drop t s.i a [] hd, scanRest_nil]
          simp [scanRest, hm]
        | cons b rest =>
          by_cases hab : a = openBrace ∧ b = openBrace
          · obtain ⟨ha, hb⟩ := hab
            subst ha hb
            rw [scanStep_literal_open t s rest hm hd]
            simp only
            rw [ih _ (by simp only [List.length_cons] at hlen ⊢; omega)]
            simp [ScanState.mode, drop_two_of_drop t s.i _ _ rest hd, scanRest]
          · rw [scanStep_literal_copy t s a b rest hm hd hab]
            simp only
            rw [ih _ (by simp only; omega)]
            simp [ScanState.mode, hm, drop_succ_of_drop t s.i a _ hd, scanRest, hab]
      | true =>
        have hmode : s.mode = some s.placeHolder := by simp [ScanState.mode, hm]
        rw [hmode]
        cases rest with
        | nil =>
          rw [scanStep_name_last t s a hm hd]
          simp only
          rw [ih _ (by simp only; omega)]
          simp [ScanState.mode, hm, drop_succ_of_drop t s.i a [] hd, scanRest_nil, scanRest]
        | cons b rest =>
          by_cases hab : a = closeBrace ∧ b = closeBrace
          · obtain ⟨ha, hb⟩ := hab
            subst ha hb
            rw [scanStep_name_close t s rest hm hd]
            simp only
            rw [ih _ (by simp only [List.length_cons] at hlen ⊢; omega)]
            simp [ScanState.mode, drop_two_of_drop t s.i _ _ rest hd, scanRest]
          · rw [scanStep_name_copy t s a b rest hm hd hab]
            simp only
            rw [ih _ (by simp only; omega)]
            simp [ScanState.mode, hm, drop_succ_of_drop t s.i a _ hd, scanRest, hab]
    · have hd : t.drop s.i = [] := List.drop_eq_nil_of_le (by omega)
      unfold scanLoop
      simp [hi, hd, scanRest_nil]

/-- The scanner returns, and what it returns is `scanRest` of the whole template. -/
theorem convert_eq_scanRest (t : GoString) :
    convertToTemplateWithFormatSpecifiersAndPlaceHolders t = Run.done (scanRest none t) := by
  unfold convertToTemplateWithFormatSpecifiersAndPlaceHolders
  rw [scanLoop_eq_scanRest t t.length ScanState.init (by omega)]
  simp [ScanState.init, ScanState.mode]

/-! ## Occurrences of a doubled byte -/

theorem pair_prefix_iff (x a b : Byte) (rest : GoString) :
    [x, x] <+: a :: b :: rest ↔ a = x ∧ b = x := by
  rw [List.cons_prefix_cons, List.cons_prefix_cons]
  constructor
  · rintro ⟨h1, h2, _⟩
    exact ⟨h1.symm, h2.symm⟩
  · rintro ⟨h1, h2⟩
    exact ⟨h1.symm, h2.symm, List.nil_prefix⟩

theorem pair_not_infix_short (x a : Byte) : ¬ [x, x] <:+: [a] := by
  intro h
  have := h.length_le
  simp at this

theorem pair_infix_cons_cons (x a b : Byte) (rest : GoString) :
    [x, x] <:+: a :: b :: rest ↔ (a = x ∧ b = x) ∨ [x, x] <:+: b :: rest := by
  rw [List.infix_cons_iff, pair_prefix_iff]

theorem noPair_iff (x : Byte) (l : GoString) : NoPair x l ↔ ¬ [x, x] <:+: l := by
  induction l with
  | nil => simp [NoPair]
  | cons a tl ih =>
    cases tl with
    | nil => simp [NoPair, pair_not_infix_short]
    | cons b rest =>
      rw [pair_infix_cons_cons, not_or, ← ih]
      rfl

theorem clean_iff (x : Byte) (l : GoString) :
    Clean x l ↔ ¬ [x, x] <:+: l ∧ l.getLast? ≠ some x := by
  induction l with
  | nil => simp [Clean]
  | cons a tl ih =>
    cases tl with
    | nil => simp [Clean, pair_not_infix_short]
    | cons b rest =>
      rw [pair_infix_cons_cons, not_or, List.getLast?_cons_cons, and_assoc, ← ih]
      rfl

/-! ## The four moves of the scanner -/

theorem scanRest_noPair (t : GoString) (h : NoPair openBrace t) :
    scanRest none t = (t, []) := by
  induction t with
  | nil => rfl
  | cons a tl ih =>
    cases tl with
    | nil => rfl
    | cons b rest =>
      obtain ⟨hab, htl⟩ := h
      simp only [scanRest, if_neg hab, ih htl]

theorem scanRest_clean_open (lit u : GoString) (h : Clean openBrace lit) :
    scanRest none (lit ++ openMarker ++ u) =
      (lit ++ (scanRest (some []) u).1, (scanRest (some []) u).2) := by
  induction lit with
  | nil => simp [openMarker, scanRest]
  | cons a tl ih =>
    cases tl with
    | nil =>
      have ha : a ≠ openBrace := h
      simp [openMarker, scanRest, ha]
    | cons b rest =>
      obtain ⟨hab, htl⟩ := h
      have := ih htl
      simp only [List.cons_append, List.append_assoc] at this ⊢
      simp only [scanRest, if_neg hab, this]

theorem scanRest_clean_close (acc name rest : GoString) (h : Clean closeBrace name) :
    scanRest (some acc) (name ++ closeMarker ++ rest) =
      (formatSlot ++ (scanRest none rest).1, (acc ++ name) :: (scanRest none rest).2) := by
  induction name generalizing acc with
  | nil => simp [closeMarker, scanRest]
  | cons a tl ih =>
    cases tl with
    | nil =>
      have ha : a ≠ closeBrace := h
      simp [closeMarker, scanRest, ha]
    | cons b tl2 =>
      obtain ⟨hab, htl⟩ := h
      have := ih (acc ++ [a]) htl
      simp only [List.cons_append, List.append_assoc, List.singleton_append,
        List.nil_append] at this ⊢
      simp only [scanRest, if_neg hab, this]

theorem scanRest_unterminated (acc t : GoString) (h : NoPair closeBrace t) :
    scanRest (some acc) t = ([], []) := by
  induction t generalizing acc with
  | nil => rfl
  | cons a tl ih =>
    cases tl with
    | nil => rfl
    | cons b rest =>
      obtain ⟨hab, htl⟩ := h
      simp only [scanRest, if_neg hab, ih _ htl]

/-! ## Claims about the scanner -/

/-- C8: the scanner never fails.  In every state in which the loop condition `i < len(template)`
holds, the loop body performs only in-range accesses (it yields a next state, not a panic)
and strictly increases `i` without passing `len(template)`; hence `len(template)`
iterations of fuel are enough, more fuel changes nothing, and a (skeleton, names) pair is
always returned. -/
theorem scanner_never_fails (template : GoString) :
    (∀ s : ScanState, s.i < template.length →
      ∃ t, scanStep template s = some t ∧ s.i < t.i ∧ t.i ≤ template.length) ∧
    (∀ fuel, template.length ≤ fuel →
      scanLoop template fuel ScanState.init =
        convertToTemplateWithFormatSpecifiersAndPlaceHolders template) ∧
    ∃ skeleton names,
      convertToTemplateWithFormatSpecifiersAndPlaceHolders template =
        Run.done (skeleton, names) := by
  refine ⟨?_, ?_, ?_⟩
  · intro s hi
    obtain ⟨a, rest, hd⟩ : ∃ a rest, template.drop s.i = a :: rest := by
      cases hdr : template.drop s.i with
      | nil =>
        have := length_of_drop template s.i _ hdr
        simp at this
        omega
      | cons a rest => exact ⟨a, rest, rfl⟩
    have hlen := length_of_drop template s.i _ hd
    simp only [List.length_cons] at hlen
    cases hm : s.isPlaceHolder with
    | false =>
      cases rest with
      | nil => exact ⟨_, scanStep_literal_last template s a hm hd, by simp, by simp; omega⟩
      | cons b rest =>
        simp only [List.length_cons] at hlen
        by_cases hab : a = openBrace ∧ b = openBrace
        · obtain ⟨ha, hb⟩ := hab
          subst ha hb
          exact ⟨_, scanStep_literal_open template s rest hm hd, by simp, by simp; omega⟩
        · exact ⟨_, scanStep_literal_copy template s a b rest hm hd hab, by simp,
            by simp; omega⟩
    | true =>
      cases rest with
      | nil => exact ⟨_, scanStep_name_last template s a hm hd, by simp, by simp; omega⟩
      | cons b rest =>
        simp only [List.length_cons] at hlen
        by_cases hab : a = closeBrace ∧ b = closeBrace
        · obtain ⟨ha, hb⟩ := hab
          subst ha hb
          exact ⟨_, scanStep_name_close template s rest hm hd, by simp, by simp; omega⟩
        · exact ⟨_, scanStep_name_copy template s a b rest hm hd hab, by simp,
            by simp; omega⟩
  · intro fuel hf
    unfold convertToTemplateWithFormatSpecifiersAndPlaceHolders
    rw [scanLoop_eq_scanRest template fuel ScanState.init (by omega),
      scanLoop_eq_scanRest template template.length ScanState.init (by omega)]
  · exact ⟨_, _, convert_eq_scanRest template⟩

/-- C7: a template without the open marker `{{` is returned unchanged as the skeleton,
with an empty list of names. -/
theorem no_marker_unchanged (template : GoString) (h : ¬ openMarker <:+: template) :
    convertToTemplateWithFormatSpecifiersAndPlaceHolders template =
      Run.done (template, []) := by
  rw [convert_eq_scanRest, scanRest_noPair template ((noPair_iff _ _).mpr h)]

/-- A run of C7 on a text with single braces and a percent sign. -/
theorem no_marker_unchanged_witness :
    ¬ openMarker <:+: bytes "Dear customer, 50% off \x7b today \x7d!" ∧
    convertToTemplateWithFormatSpecifiersAndPlaceHolders
        (bytes "Dear customer, 50% off \x7b today \x7d!") =
      Run.done (bytes "Dear customer, 50% off \x7b today \x7d!", []) :=
  ⟨by decide, no_marker_unchanged _ (by decide)⟩

/-- C5: the closed-marker step.  For a template `lit ++ "{{" ++ name ++ "}}" ++ rest` in
which `lit` contains no `{{` and does not end with `{`, and `name` contains no `}}` and does
not end with `}`, the skeleton is `lit ++ "%s"` followed by the skeleton of `rest`, and the
names are `name`, byte for byte, followed by the names of `rest`. -/
theorem closed_marker_step (lit name rest : GoString)
    (hlit : ¬ openMarker <:+: lit) (hlitEnd : lit.getLast? ≠ some openBrace)
    (hname : ¬ closeMarker <:+: name) (hnameEnd : name.getLast? ≠ some closeBrace) :
    ∃ skeleton names,
      convertToTemplateWithFormatSpecifiersAndPlaceHolders rest =
        Run.done (skeleton, names) ∧
      convertToTemplateWithFormatSpecifiersAndPlaceHolders
          (lit ++ openMarker ++ name ++ closeMarker ++ rest) =
        Run.done (lit ++ formatSlot ++ skeleton, name :: names) := by
  refine ⟨(scanRest none rest).1, (scanRest none rest).2, convert_eq_scanRest rest, ?_⟩
  have h1 : Clean openBrace lit := (clean_iff _ _).mpr ⟨hlit, hlitEnd⟩
  have h2 : Clean closeBrace name := (clean_iff _ _).mpr ⟨hname, hnameEnd⟩
  rw [convert_eq_scanRest]
  have e : lit ++ openMarker ++ name ++ closeMarker ++ rest =
      lit ++ openMarker ++ (name ++ closeMarker ++ rest) := by
    simp only [List.append_assoc]
  rw [e, scanRest_clean_open lit _ h1, scanRest_clean_close [] name rest h2]
  simp

/-- C6: an unterminated placeholder is dropped.  For a template `lit ++ "{{" ++ tail` in
which `lit` contains no `{{` and does not end with `{`, and `tail` contains no `}}`, the
skeleton is `lit` and no name is recorded. -/
theorem unterminated_dropped (lit tail : GoString)
    (hlit : ¬ openMarker <:+: lit) (hlitEnd : lit.getLast? ≠ some openBrace)
    (htail : ¬ closeMarker <:+: tail) :
    convertToTemplateWithFormatSpecifiersAndPlaceHolders (lit ++ openMarker ++ tail) =
      Run.done (lit, []) := by
  have h1 : Clean openBrace lit := (clean_iff _ _).mpr ⟨hlit, hlitEnd⟩
  rw [convert_eq_scanRest, scanRest_clean_open lit _ h1,
    scanRest_unterminated [] tail ((noPair_iff _ _).mpr htail)]
  simp

/-! ## `fmt.Sprintf` on literal text and on the verb `%s` -/

theorem doPrintf_literal (args : List GoString) (lit rest : GoString)
    (h : percent ∉ lit) :
    doPrintf none args (lit ++ rest) = (doPrintf none args rest).map (fun out => lit ++ out) := by
  induction lit with
  | nil => simp
  | cons c tl ih =>
    have hc : c ≠ percent := fun e => h (by simp [e])
    have htl : percent ∉ tl := fun e => h (by simp [e])
    simp only [List.cons_append, doPrintf, if_neg hc]
    rw [show tl.append rest = tl ++ rest from rfl, ih htl, Option.map_map]
    rfl

theorem doPrintf_slot (a : GoString) (args : List GoString) (rest : GoString) :
    doPrintf none (a :: args) (formatSlot ++ rest) =
      (doPrintf none args rest).map (fun out => a ++ out) := by
  have h1 : doPrintf none (a :: args) (formatSlot ++ rest) =
      match printArg FmtFlags.clear a 115, doPrintf none args rest with
      | some shown, some out => some (shown ++ out)
      | _, _ => none := by
    simp [formatSlot, doPrintf, percent]
  rw [h1]
  have h2 : printArg FmtFlags.clear a 115 = some a := by
    simp [printArg]
  rw [h2]
  cases doPrintf none args rest <;> rfl

theorem doPrintf_done : doPrintf none [] [] = some [] := rfl

theorem doPrintf_literal_end (lit : GoString) (h : percent ∉ lit) :
    doPrintf none [] lit = some lit := by
  have := doPrintf_literal [] lit [] h
  rw [List.append_nil, doPrintf_done] at this
  rw [this]
  simp

theorem doPrintf_render (f : GoString → GoString) (segs : List (GoString × GoString)) :
    ∀ l0 : GoString, percent ∉ l0 → (∀ p ∈ segs, percent ∉ p.2) →
      doPrintf none (segs.map (fun p => f p.1)) (render (fun _ => formatSlot) l0 segs) =
        some (render f l0 segs) := by
  induction segs with
  | nil =>
    intro l0 h0 _
    simp only [render, renderSegments, List.append_nil, List.map_nil]
    exact doPrintf_literal_end l0 h0
  | cons p rest ih =>
    intro l0 h0 hs
    have hp : percent ∉ p.2 := hs p (by simp)
    have hrest : ∀ q ∈ rest, percent ∉ q.2 := fun q hq => hs q (by simp [hq])
    have := ih p.2 hp hrest
    simp only [render] at this
    simp only [render, renderSegments, List.map_cons, List.append_assoc]
    rw [doPrintf_literal _ l0 _ h0, doPrintf_slot, this]
    simp

/-- The fallback of line 243: `fmt.Sprintf("{{%s}}", name)` is the marker text. -/
theorem sprintf_fallback (name : GoString) :
    Sprintf (bytes "\x7b\x7b%s\x7d\x7d") [name] = some (marker name) := by
  have e : bytes "\x7b\x7b%s\x7d\x7d" = openMarker ++ (formatSlot ++ closeMarker) := by decide
  unfold Sprintf
  rw [e, doPrintf_literal _ openMarker _ (by decide), doPrintf_slot,
    doPrintf_literal_end closeMarker (by decide)]
  simp [marker]

theorem constMap_lookup (today name : GoString) :
    ((placeHolderConstMap today).lookup name).map (fun g => g ()) =
      if name = bytes "TODAY" then some today else none := by
  unfold placeHolderConstMap
  by_cases h : name = bytes "TODAY"
  · subst h
    simp [List.lookup]
  · have hb : (name == bytes "TODAY") = false := by simpa using h
    simp [List.lookup, hb, h]

/-- The loop of lines 231-244 computes `resolvedValue` for every name. -/
theorem resolveArgs_eq (today : GoString) (record : Record) (names : List GoString) :
    resolveArgs today record names = some (names.map (resolvedValue today record)) := by
  induction names with
  | nil => rfl
  | cons n rest ih =>
    unfold resolveArgs
    rw [ih]
    have hv : (match record.lookup n with
        | some placeHolderValue => some placeHolderValue
        | none =>
          match (placeHolderConstMap today).lookup n with
          | some placeHolderValue => some (placeHolderValue ())
          | none => Sprintf (bytes "\x7b\x7b%s\x7d\x7d") [n]) =
        some (resolvedValue today record n) := by
      unfold resolvedValue
      cases hrec : record.lookup n with
      | some v => rfl
      | none =>
        have hc := constMap_lookup today n
        cases hl : (placeHolderConstMap today).lookup n with
        | some g =>
          rw [hl] at hc
          by_cases hn : n = bytes "TODAY"
          · simp only [hn, if_true, Option.map_some'] at hc ⊢
            exact hc
          · simp [hn] at hc
        | none =>
          rw [hl] at hc
          by_cases hn : n = bytes "TODAY"
          · simp [hn] at hc
          · simp only [hn, if_false]
            exact sprintf_fallback n
    simp only [hv, List.map_cons]

/-! ## Every template splits at its first marker -/

theorem exists_first_pair (x : Byte) (t : GoString) :
    NoPair x t ∨ ∃ lit u, t = lit ++ [x, x] ++ u ∧ Clean x lit := by
  induction t with
  | nil => exact Or.inl trivial
  | cons a tl ih =>
    cases tl with
    | nil => exact Or.inl trivial
    | cons b rest =>
      by_cases hab : a = x ∧ b = x
      · obtain ⟨ha, hb⟩ := hab
        subst ha hb
        exact Or.inr ⟨[], rest, rfl, trivial⟩
      · rcases ih with h | ⟨lit, u, e, hc⟩
        · exact Or.inl ⟨hab, h⟩
        · refine Or.inr ⟨a :: lit, u, by rw [e]; rfl, ?_⟩
          cases lit with
          | nil =>
            have hb : b = x := by
              simp only [List.nil_append, List.cons_append, List.cons.injEq] at e
              exact e.1
            intro ha
            exact hab ⟨ha, hb⟩
          | cons c lit2 =>
            have hb : b = c := by
              simp only [List.cons_append, List.cons.injEq] at e
              exact e.1
            subst hb
            exact ⟨hab, hc⟩

/-- Induction over the way the scanner reads a template: a template has no open marker, or
an open marker that is never closed, or a first closed marker followed by a shorter
template. -/
theorem template_cases (P : GoString → Prop)
    (plain : ∀ t, NoPair openBrace t → P t)
    (unclosed : ∀ lit u, Clean openBrace lit → NoPair closeBrace u →
      P (lit ++ openMarker ++ u))
    (closed : ∀ lit name rest, Clean openBrace lit → Clean closeBrace name → P rest →
      P (lit ++ openMarker ++ (name ++ closeMarker ++ rest))) :
    ∀ t, P t := by
  have key : ∀ n (t : GoString), t.length ≤ n → P t := by
    intro n
    induction n with
    | zero =>
      intro t ht
      have : t = [] := List.length_eq_zero.mp (by omega)
      subst this
      exact plain [] trivial
    | succ n ih =>
      intro t ht
      rcases exists_first_pair openBrace t with h | ⟨lit, u, e, hc⟩
      · exact plain t h
      · rcases exists_first_pair closeBrace u with h2 | ⟨name, rest, e2, hc2⟩
        · rw [e]
          exact unclosed lit u hc h2
        · rw [e, e2]
          refine closed lit name rest hc hc2 (ih rest ?_)
          rw [e, e2] at ht
          simp only [List.length_append, List.length_cons, List.length_nil] at ht
          omega
  intro t
  exact key t.length t (le_refl _)

/-! ## `strings.Cut` at a doubled byte -/

theorem cut_pair_cons_cons (x a b : Byte) (rest : GoString) :
    cut [x, x] (a :: b :: rest) =
      if a = x ∧ b = x then some ([], rest)
      else (cut [x, x] (b :: rest)).map (fun p => (a :: p.1, p.2)) := by
  by_cases hab : a = x ∧ b = x
  · obtain ⟨ha, hb⟩ := hab
    subst ha hb
    simp [cut, List.isPrefixOf]
  · rw [if_neg hab]
    have : List.isPrefixOf [x, x] (a :: b :: rest) = false := by
      simp only [List.isPrefixOf, Bool.and_true, Bool.and_eq_false_imp, beq_iff_eq]
      intro h1
      simp only [beq_eq_false_iff_ne, ne_eq]
      intro h2
      exact hab ⟨h1.symm, h2.symm⟩
    simp [cut, this]

theorem cut_pair_single (x a : Byte) : cut [x, x] [a] = none := by
  simp [cut, List.isPrefixOf]

theorem cut_noPair (x : Byte) (t : GoString) (h : NoPair x t) : cut [x, x] t = none := by
  induction t with
  | nil => simp [cut]
  | cons a tl ih =>
    cases tl with
    | nil => exact cut_pair_single x a
    | cons b rest =>
      obtain ⟨hab, htl⟩ := h
      rw [cut_pair_cons_cons, if_neg hab, ih htl]
      rfl

theorem cut_clean (x : Byte) (lit u : GoString) (h : Clean x lit) :
    cut [x, x] (lit ++ [x, x] ++ u) = some (lit, u) := by
  induction lit with
  | nil =>
    simp only [List.nil_append, List.cons_append]
    rw [cut_pair_cons_cons]
    simp
  | cons a tl ih =>
    cases tl with
    | nil =>
      have ha : a ≠ x := h
      simp only [List.cons_append, List.nil_append]
      rw [cut_pair_cons_cons, if_neg (fun hh => ha hh.1)]
      have := ih trivial
      simp only [List.nil_append, List.cons_append] at this
      rw [this]
      rfl
    | cons b tl2 =>
      obtain ⟨hab, htl⟩ := h
      have := ih htl
      simp only [List.cons_append] at this ⊢
      rw [cut_pair_cons_cons, if_neg hab, this]
      rfl

/-! ## The scanner's split of a template -/

theorem renderSegments_append (f : GoString → GoString) (xs ys : List (GoString × GoString)) :
    renderSegments f (xs ++ ys) = renderSegments f xs ++ renderSegments f ys := by
  induction xs with
  | nil => rfl
  | cons p rest ih => simp [renderSegments, ih]

/-- Every template is `l0 {{n1}} l1 ... {{nk}} lk` followed by nothing or by an open marker
that is never closed; the skeleton is `l0 %s l1 ... %s lk` and the names are `n1 ... nk`. -/
theorem scanRest_split (t : GoString) :
    ∃ l0 segs tail,
      t = render marker l0 segs ++ tail ∧
      (tail = [] ∨ ∃ u, tail = openMarker ++ u ∧ ¬ closeMarker <:+: u) ∧
      scanRest none t = (render (fun _ => formatSlot) l0 segs, segs.map Prod.fst) := by
  refine template_cases
    (fun t => ∃ l0 segs tail,
      t = render marker l0 segs ++ tail ∧
      (tail = [] ∨ ∃ u, tail = openMarker ++ u ∧ ¬ closeMarker <:+: u) ∧
      scanRest none t = (render (fun _ => formatSlot) l0 segs, segs.map Prod.fst))
    ?_ ?_ ?_ t
  · intro t h
    exact ⟨t, [], [], by simp [render, renderSegments], Or.inl rfl,
      by simp [render, renderSegments, scanRest_noPair t h]⟩
  · intro lit u hlit hu
    refine ⟨lit, [], openMarker ++ u, by simp [render, renderSegments],
      Or.inr ⟨u, rfl, (noPair_iff _ _).mp hu⟩, ?_⟩
    rw [scanRest_clean_open lit u hlit, scanRest_unterminated [] u hu]
    simp [render, renderSegments]
  · intro lit name rest hlit hname ih
    obtain ⟨l0, segs, tail, e, htail, hscan⟩ := ih
    refine ⟨lit, (name, l0) :: segs, tail, ?_, htail, ?_⟩
    · conv_lhs => rw [e]
      simp [render, renderSegments, marker]
    · rw [scanRest_clean_open lit _ hlit, scanRest_clean_close [] name rest hname, hscan]
      simp [render, renderSegments]

theorem percent_not_mem_render (l0 : GoString) (segs : List (GoString × GoString))
    (h : percent ∉ render marker l0 segs) :
    percent ∉ l0 ∧ ∀ p ∈ segs, percent ∉ p.2 := by
  induction segs generalizing l0 with
  | nil =>
    simp only [render, renderSegments, List.append_nil] at h
    exact ⟨h, by simp⟩
  | cons q rest ih =>
    simp only [render, renderSegments, List.mem_append, not_or] at h
    obtain ⟨h0, ⟨_, hq⟩, hrest⟩ := h
    have := ih q.2 (by simp only [render, List.mem_append, not_or]; exact ⟨hq, hrest⟩)
    refine ⟨h0, ?_⟩
    intro p hp
    rcases List.mem_cons.mp hp with e | hp
    · rw [e]
      exact this.1
    · exact this.2 p hp

/-- The resolver in terms of `scanRest` and `resolvedValue`. -/
theorem parse_eq (today template : GoString) (record : Record) :
    parseTemplateWithValue today template record =
      doPrintf none ((scanRest none template).2.map (resolvedValue today record))
        (scanRest none template).1 := by
  unfold parseTemplateWithValue
  rw [convert_eq_scanRest]
  simp only [resolveArgs_eq, Sprintf]

theorem count_renderSegments_ge (segs : List (GoString × GoString)) :
    segs.length ≤ (renderSegments (fun _ => formatSlot) segs).count percent := by
  induction segs with
  | nil => simp [renderSegments]
  | cons p rest ih =>
    have h1 : formatSlot.count percent = 1 := by decide
    simp only [renderSegments, List.count_append, List.length_cons, h1]
    omega

theorem names_le_count (t : GoString) :
    (scanRest none t).2.length ≤ (scanRest none t).1.count percent := by
  obtain ⟨l0, segs, tail, _, _, hscan⟩ := scanRest_split t
  rw [hscan]
  have := count_renderSegments_ge segs
  simp only [render, List.count_append, List.length_map]
  omega

/-- What the resolver makes of a skeleton whose literal text has no `%`. -/
theorem parse_of_segments (today template : GoString) (record : Record)
    (l0 : GoString) (segs : List (GoString × GoString))
    (hscan : scanRest none template =
      (render (fun _ => formatSlot) l0 segs, segs.map Prod.fst))
    (h0 : percent ∉ l0) (hs : ∀ p ∈ segs, percent ∉ p.2) :
    parseTemplateWithValue today template record =
      some (render (resolvedValue today record) l0 segs) := by
  rw [parse_eq, hscan]
  simp only [List.map_map]
  exact doPrintf_render (resolvedValue today record) segs l0 h0 hs

/-- The split of a template without `%`, and what the resolver makes of it. -/
theorem parse_split (today template : GoString) (record : Record)
    (h : percent ∉ template) :
    ∃ l0 segs tail,
      template = render marker l0 segs ++ tail ∧
      (tail = [] ∨ ∃ u, tail = openMarker ++ u ∧ ¬ closeMarker <:+: u) ∧
      scanRest none template = (render (fun _ => formatSlot) l0 segs, segs.map Prod.fst) ∧
      parseTemplateWithValue today template record =
        some (render (resolvedValue today record) l0 segs) := by
  obtain ⟨l0, segs, tail, e, htail, hscan⟩ := scanRest_split template
  refine ⟨l0, segs, tail, e, htail, hscan, ?_⟩
  have hfree : percent ∉ render marker l0 segs := by
    intro hm
    exact h (by rw [e]; exact List.mem_append_left _ hm)
  obtain ⟨h0, hs⟩ := percent_not_mem_render l0 segs hfree
  exact parse_of_segments today template record l0 segs hscan h0 hs

/-! ## Claims about the resolver -/

/-- C10: end-to-end rendering of a template without `%`.  Such a template is
`l0 {{n1}} l1 ... {{nk}} lk`, possibly followed by an open marker that is never closed; the
scanner returns the skeleton `l0 %s l1 ... %s lk` with the names `n1 ... nk`, and the
resolver returns `l0 ++ v1 ++ l1 ++ ... ++ vk ++ lk`, where `vi` is the record's value for
`ni` if `ni` is a key, else the registry's value if `ni` is `TODAY`, else `{{ni}}`.  The
values are copied as they are, whatever bytes they contain. -/
theorem render_percent_free (today template : GoString) (record : Record)
    (h : percent ∉ template) :
    ∃ l0 segs tail,
      template = render marker l0 segs ++ tail ∧
      (tail = [] ∨ ∃ u, tail = openMarker ++ u ∧ ¬ closeMarker <:+: u) ∧
      convertToTemplateWithFormatSpecifiersAndPlaceHolders template =
        Run.done (render (fun _ => formatSlot) l0 segs, segs.map Prod.fst) ∧
      parseTemplateWithValue today template record =
        some (render (resolvedValue today record) l0 segs) := by
  obtain ⟨l0, segs, tail, e, htail, hscan, hparse⟩ := parse_split today template record h
  exact ⟨l0, segs, tail, e, htail, by rw [convert_eq_scanRest, hscan], hparse⟩

/-- C4: record precedence.  When the name at position `k` is a key of the record, the
operand the resolver builds for position `k` is the record's value, whatever the value and
whatever the name. -/
theorem record_precedence (today : GoString) (record : Record) (names : List GoString)
    (k : Nat) (n v : GoString) (hk : names[k]? = some n) (hv : record.lookup n = some v) :
    ∃ args, resolveArgs today record names = some args ∧ args[k]? = some v := by
  refine ⟨_, resolveArgs_eq today record names, ?_⟩
  rw [List.getElem?_map, hk]
  simp [resolvedValue, hv]

/-- C9, amended: the output depends on the time of the call only through the `TODAY`
placeholder.  When `TODAY` is a key of the record, or is not among the scanned names, two
calls with the same template and record at any two dates build the same operands, hand
`fmt.Sprintf` the same format with the same operands, and so return the same answer. -/
theorem same_output_without_today (today1 today2 template : GoString) (record : Record)
    (skeleton : GoString) (names : List GoString)
    (hscan : convertToTemplateWithFormatSpecifiersAndPlaceHolders template =
      Run.done (skeleton, names))
    (h : bytes "TODAY" ∈ names → (record.lookup (bytes "TODAY")).isSome) :
    (∃ args,
      resolveArgs today1 record names = some args ∧
      resolveArgs today2 record names = some args ∧
      parseTemplateWithValue today1 template record = Sprintf skeleton args ∧
      parseTemplateWithValue today2 template record = Sprintf skeleton args) ∧
    parseTemplateWithValue today1 template record =
      parseTemplateWithValue today2 template record := by
  have hargs : names.map (resolvedValue today2 record) =
      names.map (resolvedValue today1 record) := by
    apply List.map_congr_left
    intro n hmem
    unfold resolvedValue
    cases hl : record.lookup n with
    | some v => rfl
    | none =>
      by_cases e : n = bytes "TODAY"
      · subst e
        have := h hmem
        rw [hl] at this
        simp at this
      · simp [e]
  have h1 : parseTemplateWithValue today1 template record =
      Sprintf skeleton (names.map (resolvedValue today1 record)) := by
    unfold parseTemplateWithValue
    rw [hscan]
    simp only [resolveArgs_eq]
  have h2 : parseTemplateWithValue today2 template record =
      Sprintf skeleton (names.map (resolvedValue today1 record)) := by
    unfold parseTemplateWithValue
    rw [hscan]
    simp only [resolveArgs_eq, hargs]
  refine ⟨⟨names.map (resolvedValue today1 record), resolveArgs_eq today1 record names, ?_,
    h1, h2⟩, by rw [h1, h2]⟩
  rw [resolveArgs_eq, hargs]

/-! ## The round trip -/

theorem substitute_scanRest (record : Record) (today : GoString) (t : GoString) :
    (scanRest none t).1.count percent = (scanRest none t).2.length →
    (∀ n ∈ (scanRest none t).2, (record.lookup n).isSome) →
    ∀ fuel, t.length ≤ fuel →
      doPrintf none ((scanRest none t).2.map (resolvedValue today record)) (scanRest none t).1 =
        some (substituteMarkersFuel false record fuel t) := by
  refine template_cases
    (fun t => (scanRest none t).1.count percent = (scanRest none t).2.length →
      (∀ n ∈ (scanRest none t).2, (record.lookup n).isSome) →
      ∀ fuel, t.length ≤ fuel →
        doPrintf none ((scanRest none t).2.map (resolvedValue today record))
            (scanRest none t).1 =
          some (substituteMarkersFuel false record fuel t)) ?_ ?_ ?_ t
  · intro t h hcount _ fuel _
    rw [scanRest_noPair t h] at hcount ⊢
    have hfree : percent ∉ t := List.count_eq_zero.mp hcount
    have hs : substituteMarkersFuel false record fuel t = t := by
      cases fuel with
      | zero => rfl
      | succ f => simp [substituteMarkersFuel, openMarker, cut_noPair openBrace t h]
    rw [hs]
    exact doPrintf_literal_end t hfree
  · intro lit u hlit hu hcount _ fuel hfuel
    rw [scanRest_clean_open lit u hlit, scanRest_unterminated [] u hu] at hcount ⊢
    have hl : percent ∉ lit := by
      simp only [List.append_nil, List.length_nil] at hcount
      exact List.count_eq_zero.mp hcount
    have hs : substituteMarkersFuel false record fuel (lit ++ openMarker ++ u) = lit := by
      cases fuel with
      | zero => simp [openMarker] at hfuel
      | succ f =>
        have h1 : cut openMarker (lit ++ openMarker ++ u) = some (lit, u) :=
          cut_clean openBrace lit u hlit
        have h2 : cut closeMarker u = none := cut_noPair closeBrace u hu
        simp only [substituteMarkersFuel, h1, h2]
        rfl
    rw [hs]
    simpa using doPrintf_literal_end lit hl
  · intro lit name rest hlit hname ih hcount hkeys fuel hfuel
    rw [scanRest_clean_open lit _ hlit, scanRest_clean_close [] name rest hname]
      at hcount hkeys ⊢
    have h1c : formatSlot.count percent = 1 := by decide
    have hge := names_le_count rest
    simp only [List.count_append, List.length_cons, h1c] at hcount
    have hl : percent ∉ lit := List.count_eq_zero.mp (by omega)
    have hr : (scanRest none rest).1.count percent = (scanRest none rest).2.length := by
      omega
    have hkn : (record.lookup name).isSome := hkeys name (by simp)
    have hkr : ∀ n ∈ (scanRest none rest).2, (record.lookup n).isSome :=
      fun n hn => hkeys n (by simp [hn])
    cases fuel with
    | zero => simp [openMarker] at hfuel
    | succ f =>
      have hf : rest.length ≤ f := by
        simp only [openMarker, closeMarker, List.length_append, List.length_cons,
          List.length_nil] at hfuel
        omega
      have h1 : cut openMarker (lit ++ openMarker ++ (name ++ closeMarker ++ rest)) =
          some (lit, name ++ closeMarker ++ rest) :=
        cut_clean openBrace lit (name ++ closeMarker ++ rest) hlit
      have h2 : cut closeMarker (name ++ closeMarker ++ rest) = some (name, rest) :=
        cut_clean closeBrace name rest hname
      have hs : substituteMarkersFuel false record (f + 1)
          (lit ++ openMarker ++ (name ++ closeMarker ++ rest)) =
          lit ++ (record.lookup name).getD [] ++ substituteMarkersFuel false record f rest := by
        simp only [substituteMarkersFuel, h1, h2]
      have hv : resolvedValue today record name = (record.lookup name).getD [] := by
        unfold resolvedValue
        cases hlk : record.lookup name with
        | some v => rfl
        | none => rw [hlk] at hkn; simp at hkn
      rw [hs]
      simp only [List.nil_append, List.map_cons, List.append_assoc]
      rw [doPrintf_literal _ lit _ hl, doPrintf_slot, ih hr hkr f hf, hv]
      simp

/-- C1, amended: the round trip for templates without `%` in their literal text.  When the
template has no `%` byte outside its closed markers (the skeleton has one `%` per name) and
every scanned name is a key of the record, the resolver returns the template with each
closed marker `{{name}}` replaced by the record's value for `name`, an open marker that is
never closed removed together with all that follows it, and every other byte unchanged. -/
theorem round_trip_literal_percent_free (today template : GoString) (record : Record)
    (skeleton : GoString) (names : List GoString)
    (hscan : convertToTemplateWithFormatSpecifiersAndPlaceHolders template =
      Run.done (skeleton, names))
    (hfree : skeleton.count percent = names.length)
    (hkeys : ∀ n ∈ names, (record.lookup n).isSome) :
    parseTemplateWithValue today template record =
      some (substituteMarkers false record template) := by
  rw [convert_eq_scanRest] at hscan
  have hpair : scanRest none template = (skeleton, names) := by
    injection hscan
  rw [parse_eq]
  exact substitute_scanRest record today template (by rw [hpair]; exact hfree)
    (by rw [hpair]; exact hkeys) template.length (le_refl _)

/-! ## Concrete runs -/

/-- A run of C5 on the first example of the specification, and the scanner on a template whose name holds blanks and an inner open marker twice. -/
theorem closed_marker_step_witness :
    (¬ openMarker <:+: bytes "Hello " ∧ (bytes "Hello ").getLast? ≠ some openBrace ∧
      ¬ closeMarker <:+: bytes "NAME" ∧ (bytes "NAME").getLast? ≠ some closeBrace) ∧
    (∃ skeleton names,
      convertToTemplateWithFormatSpecifiersAndPlaceHolders
          (bytes ", today is \x7b\x7bTODAY\x7d\x7d.") = Run.done (skeleton, names) ∧
      convertToTemplateWithFormatSpecifiersAndPlaceHolders
          (bytes "Hello " ++ openMarker ++ bytes "NAME" ++ closeMarker ++
            bytes ", today is \x7b\x7bTODAY\x7d\x7d.") =
        Run.done (bytes "Hello " ++ formatSlot ++ skeleton, bytes "NAME" :: names)) ∧
    convertToTemplateWithFormatSpecifiersAndPlaceHolders
        (bytes "Hello \x7b\x7bNAME\x7d\x7d, today is \x7b\x7bTODAY\x7d\x7d.") =
      Run.done (bytes "Hello %s, today is %s.", [bytes "NAME", bytes "TODAY"]) ∧
    convertToTemplateWithFormatSpecifiersAndPlaceHolders
        (bytes "\x7b\x7b a\x7b\x7bb \x7d\x7d-\x7b\x7b a\x7b\x7bb \x7d\x7d") =
      Run.done (bytes "%s-%s", [bytes " a\x7b\x7bb ", bytes " a\x7b\x7bb "]) :=
  ⟨⟨by decide, by decide, by decide, by decide⟩,
    closed_marker_step (bytes "Hello ") (bytes "NAME")
      (bytes ", today is \x7b\x7bTODAY\x7d\x7d.") (by decide) (by decide) (by decide)
      (by decide),
    by decide, by decide⟩

/-- A run of C6 on the third example of the specification. -/
theorem unterminated_dropped_witness :
    (¬ openMarker <:+: bytes "Unclosed " ∧ (bytes "Unclosed ").getLast? ≠ some openBrace ∧
      ¬ closeMarker <:+: bytes "X") ∧
    convertToTemplateWithFormatSpecifiersAndPlaceHolders
        (bytes "Unclosed " ++ openMarker ++ bytes "X") = Run.done (bytes "Unclosed ", []) ∧
    bytes "Unclosed " ++ openMarker ++ bytes "X" = bytes "Unclosed \x7b\x7bX" :=
  ⟨⟨by decide, by decide, by decide⟩,
    unterminated_dropped (bytes "Unclosed ") (bytes "X") (by decide) (by decide) (by decide),
    by decide⟩

/-- A run of C10 on a template with a resolved name, an unresolved name and an open marker that is never closed; the record value contains a percent sign. -/
theorem render_percent_free_witness :
    percent ∉ bytes "Hi \x7b\x7bFIRST\x7d\x7d \x7b\x7bLAST\x7d\x7d, \x7b\x7bX" ∧
    ∃ l0 segs tail,
      bytes "Hi \x7b\x7bFIRST\x7d\x7d \x7b\x7bLAST\x7d\x7d, \x7b\x7bX" =
        render marker l0 segs ++ tail ∧
      (tail = [] ∨ ∃ u, tail = openMarker ++ u ∧ ¬ closeMarker <:+: u) ∧
      convertToTemplateWithFormatSpecifiersAndPlaceHolders
          (bytes "Hi \x7b\x7bFIRST\x7d\x7d \x7b\x7bLAST\x7d\x7d, \x7b\x7bX") =
        Run.done (render (fun _ => formatSlot) l0 segs, segs.map Prod.fst) ∧
      parseTemplateWithValue (bytes "4 Nov 2026")
          (bytes "Hi \x7b\x7bFIRST\x7d\x7d \x7b\x7bLAST\x7d\x7d, \x7b\x7bX")
          [(bytes "FIRST", bytes "100%d")] =
        some (render (resolvedValue (bytes "4 Nov 2026") [(bytes "FIRST", bytes "100%d")])
          l0 segs) :=
  ⟨by decide, render_percent_free _ _ _ (by decide)⟩

/-- A run of C4 where the name is the registry name and the record value is the empty string. -/
theorem record_precedence_witness :
    [bytes "A", bytes "TODAY"][1]? = some (bytes "TODAY") ∧
    List.lookup (bytes "TODAY") [(bytes "TODAY", ([] : GoString))] = some [] ∧
    ∃ args,
      resolveArgs (bytes "4 Nov 2026") [(bytes "TODAY", [])] [bytes "A", bytes "TODAY"] =
        some args ∧
      args[1]? = some [] :=
  ⟨by decide, by decide,
    record_precedence (bytes "4 Nov 2026") [(bytes "TODAY", [])] [bytes "A", bytes "TODAY"] 1
      (bytes "TODAY") [] (by decide) (by decide)⟩

/-- A run of the amended C9 where the record has the key of the registry name: on both days
the operands are `now` and `{{A}}` and the output is `now: {{A}}`. -/
theorem same_output_without_today_witness :
    (convertToTemplateWithFormatSpecifiersAndPlaceHolders
        (bytes "\x7b\x7bTODAY\x7d\x7d: \x7b\x7bA\x7d\x7d") =
      Run.done (bytes "%s: %s", [bytes "TODAY", bytes "A"]) ∧
      (bytes "TODAY" ∈ [bytes "TODAY", bytes "A"] →
        (List.lookup (bytes "TODAY") [(bytes "TODAY", bytes "now")]).isSome)) ∧
    ((∃ args,
        resolveArgs (bytes "4 Nov 2026") [(bytes "TODAY", bytes "now")]
          [bytes "TODAY", bytes "A"] = some args ∧
        resolveArgs (bytes "5 Nov 2026") [(bytes "TODAY", bytes "now")]
          [bytes "TODAY", bytes "A"] = some args ∧
        parseTemplateWithValue (bytes "4 Nov 2026")
            (bytes "\x7b\x7bTODAY\x7d\x7d: \x7b\x7bA\x7d\x7d") [(bytes "TODAY", bytes "now")] =
          Sprintf (bytes "%s: %s") args ∧
        parseTemplateWithValue (bytes "5 Nov 2026")
            (bytes "\x7b\x7bTODAY\x7d\x7d: \x7b\x7bA\x7d\x7d") [(bytes "TODAY", bytes "now")] =
          Sprintf (bytes "%s: %s") args) ∧
      parseTemplateWithValue (bytes "4 Nov 2026")
          (bytes "\x7b\x7bTODAY\x7d\x7d: \x7b\x7bA\x7d\x7d") [(bytes "TODAY", bytes "now")] =
        parseTemplateWithValue (bytes "5 Nov 2026")
          (bytes "\x7b\x7bTODAY\x7d\x7d: \x7b\x7bA\x7d\x7d") [(bytes "TODAY", bytes "now")]) ∧
    resolveArgs (bytes "5 Nov 2026") [(bytes "TODAY", bytes "now")]
        [bytes "TODAY", bytes "A"] = some [bytes "now", bytes "\x7b\x7bA\x7d\x7d"] ∧
    parseTemplateWithValue (bytes "5 Nov 2026")
        (bytes "\x7b\x7bTODAY\x7d\x7d: \x7b\x7bA\x7d\x7d") [(bytes "TODAY", bytes "now")] =
      some (bytes "now: \x7b\x7bA\x7d\x7d") :=
  ⟨⟨by decide, by decide⟩,
    same_output_without_today (bytes "4 Nov 2026") (bytes "5 Nov 2026")
      (bytes "\x7b\x7bTODAY\x7d\x7d: \x7b\x7bA\x7d\x7d") [(bytes "TODAY", bytes "now")]
      (bytes "%s: %s") [bytes "TODAY", bytes "A"] (by decide) (by decide),
    by decide, by decide⟩

/-- A run of the amended C1 on a template with two closed markers, one of them with a
percent sign in its name, and an open marker that is never closed. -/
theorem round_trip_literal_percent_free_witness :
    (convertToTemplateWithFormatSpecifiersAndPlaceHolders
        (bytes "Dear \x7b\x7bNAME\x7d\x7d, \x7b\x7bRATE%\x7d\x7d off! \x7b\x7bX") =
      Run.done (bytes "Dear %s, %s off! ", [bytes "NAME", bytes "RATE%"]) ∧
      (bytes "Dear %s, %s off! ").count percent = [bytes "NAME", bytes "RATE%"].length ∧
      ∀ n ∈ [bytes "NAME", bytes "RATE%"],
        (List.lookup n [(bytes "NAME", bytes "Ann"), (bytes "RATE%", bytes "20%")]).isSome) ∧
    parseTemplateWithValue (bytes "4 Nov 2026")
        (bytes "Dear \x7b\x7bNAME\x7d\x7d, \x7b\x7bRATE%\x7d\x7d off! \x7b\x7bX")
        [(bytes "NAME", bytes "Ann"), (bytes "RATE%", bytes "20%")] =
      some (substituteMarkers false [(bytes "NAME", bytes "Ann"), (bytes "RATE%", bytes "20%")]
        (bytes "Dear \x7b\x7bNAME\x7d\x7d, \x7b\x7bRATE%\x7d\x7d off! \x7b\x7bX")) ∧
    substituteMarkers false [(bytes "NAME", bytes "Ann"), (bytes "RATE%", bytes "20%")]
        (bytes "Dear \x7b\x7bNAME\x7d\x7d, \x7b\x7bRATE%\x7d\x7d off! \x7b\x7bX") =
      bytes "Dear Ann, 20% off! " :=
  ⟨⟨by decide, by decide, by decide⟩,
    round_trip_literal_percent_free (bytes "4 Nov 2026")
      (bytes "Dear \x7b\x7bNAME\x7d\x7d, \x7b\x7bRATE%\x7d\x7d off! \x7b\x7bX")
      [(bytes "NAME", bytes "Ann"), (bytes "RATE%", bytes "20%")]
      (bytes "Dear %s, %s off! ") [bytes "NAME", bytes "RATE%"]
      (by decide) (by decide) (by decide),
    by decide⟩

/-! ## Where the specification and the code part -/

/-- C1 as stated fails.  With the record `NAME = Ann`, which has every scanned name as a key,
the template `50% off for {{NAME}}` is not rendered as `50% off for Ann`: the `%` of the
literal text is read by `fmt.Sprintf` as the start of a verb.  And the template
`Unclosed {{X`, which has no marker to replace, is not reproduced: the resolver returns
`Unclosed `. -/
theorem round_trip_fails :
    (convertToTemplateWithFormatSpecifiersAndPlaceHolders (bytes "50% off for \x7b\x7bNAME\x7d\x7d") =
        Run.done (bytes "50% off for %s", [bytes "NAME"]) ∧
      List.lookup (bytes "NAME") [(bytes "NAME", bytes "Ann")] = some (bytes "Ann") ∧
      substituteMarkers true [(bytes "NAME", bytes "Ann")]
        (bytes "50% off for \x7b\x7bNAME\x7d\x7d") = bytes "50% off for Ann" ∧
      parseTemplateWithValue (bytes "4 Nov 2026") (bytes "50% off for \x7b\x7bNAME\x7d\x7d")
          [(bytes "NAME", bytes "Ann")] =
        some (bytes "50%!o(string=Ann)ff for %!s(MISSING)")) ∧
    (convertToTemplateWithFormatSpecifiersAndPlaceHolders (bytes "Unclosed \x7b\x7bX") =
        Run.done (bytes "Unclosed ", []) ∧
      substituteMarkers true [] (bytes "Unclosed \x7b\x7bX") = bytes "Unclosed \x7b\x7bX" ∧
      parseTemplateWithValue (bytes "4 Nov 2026") (bytes "Unclosed \x7b\x7bX") [] =
        some (bytes "Unclosed ")) ∧
    ¬ ∀ (today template : GoString) (record : Record),
        (∀ skeleton names,
          convertToTemplateWithFormatSpecifiersAndPlaceHolders template =
            Run.done (skeleton, names) →
          ∀ n ∈ names, (record.lookup n).isSome) →
        parseTemplateWithValue today template record =
          some (substituteMarkers true record template) := by
  refine ⟨⟨by decide, by decide, by decide, by decide⟩, ⟨by decide, by decide, by decide⟩, ?_⟩
  intro hall
  have h := hall (bytes "4 Nov 2026") (bytes "Unclosed \x7b\x7bX") [] (by
    intro skeleton names hs n hn
    have e : convertToTemplateWithFormatSpecifiersAndPlaceHolders (bytes "Unclosed \x7b\x7bX") =
        Run.done (bytes "Unclosed ", []) := by decide
    rw [e] at hs
    injection hs with hs
    injection hs with _ h2
    subst h2
    simp at hn)
  revert h
  decide

/-- C2: the number of `%s` in the skeleton is meant to equal the number of names, and the
code breaks this on the template `%s`.  The template has no marker; the scanner copies its
`%` into the skeleton without escaping it, so the skeleton is `%s`, with one occurrence of
the format slot, and no name is returned.  The resolver then formats `%s` without an
operand and returns `%!s(MISSING)`. -/
theorem slots_exceed_names :
    convertToTemplateWithFormatSpecifiersAndPlaceHolders (bytes "%s") =
      Run.done (bytes "%s", []) ∧
    countSlots (bytes "%s") = 1 ∧ ([] : List GoString).length = 0 ∧
    parseTemplateWithValue (bytes "4 Nov 2026") (bytes "%s") [] =
      some (bytes "%!s(MISSING)") := by decide

/-- C3: an unresolved marker is meant to stay in the output, and the code loses it on the
template `%x{{X}}` with the empty record.  The name `X` is neither a key of the record nor
`TODAY`, and the operand built for it is `{{X}}`, as line 243 intends; but the `%x` of the
literal text reaches `fmt.Sprintf` unescaped, consumes that operand and prints it in
hexadecimal, and the slot of `X` finds no operand: the output does not contain `{{X}}`. -/
theorem unresolved_marker_lost :
    convertToTemplateWithFormatSpecifiersAndPlaceHolders (bytes "%x\x7b\x7bX\x7d\x7d") =
      Run.done (bytes "%x%s", [bytes "X"]) ∧
    List.lookup (bytes "X") ([] : Record) = none ∧ bytes "X" ≠ bytes "TODAY" ∧
    resolveArgs (bytes "4 Nov 2026") [] [bytes "X"] = some [marker (bytes "X")] ∧
    parseTemplateWithValue (bytes "4 Nov 2026") (bytes "%x\x7b\x7bX\x7d\x7d") [] =
      some (bytes "7b7b587d7d%!s(MISSING)") ∧
    ¬ marker (bytes "X") <:+: bytes "7b7b587d7d%!s(MISSING)" := by decide

/-- C9 as stated fails: the template `{{TODAY}}` with the empty record is rendered as the
date of the call, so two calls on different days return different strings. -/
theorem output_depends_on_date :
    parseTemplateWithValue (bytes "4 Nov 2026") (bytes "\x7b\x7bTODAY\x7d\x7d") [] =
      some (bytes "4 Nov 2026") ∧
    parseTemplateWithValue (bytes "5 Nov 2026") (bytes "\x7b\x7bTODAY\x7d\x7d") [] =
      some (bytes "5 Nov 2026") ∧
    parseTemplateWithValue (bytes "4 Nov 2026") (bytes "\x7b\x7bTODAY\x7d\x7d") [] ≠
      parseTemplateWithValue (bytes "5 Nov 2026") (bytes "\x7b\x7bTODAY\x7d\x7d") [] := by
  decide

end PiExchange
